import Mathlib

/-!
# Verification of the TSE option-market dashboard analytics core

A shallow embedding, over exact rationals, of the analytics pipeline of the
`tse_option_market_dashboard` repository:

* `Scripts/chain_calculator.py` — Black-Scholes pricing, implied-volatility
  solving, Greeks, historical volatility, and the enhanced options-chain build;
* `Scripts/iv_calculator.py`    — the per-contract implied-volatility history build;
* `server/data_updater.py`      — the sequential pipeline scheduler.

Modelling conventions used throughout:

* Python floats are modelled as exact rationals (`ℚ`); a float `NaN` is
  modelled as `none : Option ℚ` (the code only ever branches on NaN through
  `pd.isna` / ordered comparisons, and an ordered comparison against NaN is
  false, which the `Option` threading below reproduces at each use site).
* The transcendental routines the scripts take from numpy/scipy
  (`np.log`, `np.exp`, `np.sqrt`, `norm.cdf`, `norm.pdf`) are external
  collaborators; they are passed in as an explicit record `MathFns` of
  rational-valued functions, so every statement quantifies over them.
* Tabular files are lists of typed rows; a missing file is `none` and reading
  a missing file is the error case of `Except` (pandas raises
  `FileNotFoundError`).  Date normalization (Jalali calendar strings to
  `yyyymmdd` integers) follows `jalali_to_int` on the character data.
* Arithmetic is written with `mkRat`-based wrappers (`qadd`, `qmul`, ...) that
  the kernel can evaluate; the bridge lemmas `qadd_eq` etc. identify them with
  the field operations of `ℚ`, and all abstract reasoning happens on the
  field side.
-/

namespace TSE

/-! ## Rational arithmetic wrappers and their bridges -/

/-- Addition on `ℚ` via `mkRat` (kernel-evaluable). -/
def qadd (a b : ℚ) : ℚ := mkRat (a.num * b.den + b.num * a.den) (a.den * b.den)

/-- Subtraction on `ℚ` via `mkRat` (kernel-evaluable). -/
def qsub (a b : ℚ) : ℚ := mkRat (a.num * b.den - b.num * a.den) (a.den * b.den)

/-- Multiplication on `ℚ` via `mkRat` (kernel-evaluable). -/
def qmul (a b : ℚ) : ℚ := mkRat (a.num * b.num) (a.den * b.den)

/-- Negation on `ℚ` via `mkRat` (kernel-evaluable). -/
def qneg (a : ℚ) : ℚ := mkRat (-a.num) a.den

/-- Inverse on `ℚ` via `Rat.divInt` (kernel-evaluable); `qinv 0 = 0`. -/
def qinv (a : ℚ) : ℚ := Rat.divInt (a.den : Int) a.num

/-- Division on `ℚ` (kernel-evaluable); division by zero yields `0`, a case no
guarded code path below ever reaches. -/
def qdiv (a b : ℚ) : ℚ := qmul a (qinv b)

/-- Embedding of `Int` into `ℚ` (kernel-evaluable). -/
def qofInt (n : Int) : ℚ := mkRat n 1

/-- Embedding of `Nat` into `ℚ` (kernel-evaluable). -/
def qofNat (n : Nat) : ℚ := mkRat (Int.ofNat n) 1

/-- Sum of a list of rationals (kernel-evaluable). -/
def qsum : List ℚ → ℚ
  | [] => 0
  | x :: xs => qadd x (qsum xs)

theorem qadd_eq (a b : ℚ) : qadd a b = a + b := by
  unfold qadd
  rw [Rat.mkRat_eq_div]
  push_cast
  conv_rhs => rw [← Rat.num_div_den a, ← Rat.num_div_den b]
  have ha : ((a.den : ℚ)) ≠ 0 := by positivity
  have hb : ((b.den : ℚ)) ≠ 0 := by positivity
  field_simp
  try ring

theorem qsub_eq (a b : ℚ) : qsub a b = a - b := by
  unfold qsub
  rw [Rat.mkRat_eq_div]
  push_cast
  conv_rhs => rw [← Rat.num_div_den a, ← Rat.num_div_den b]
  have ha : ((a.den : ℚ)) ≠ 0 := by positivity
  have hb : ((b.den : ℚ)) ≠ 0 := by positivity
  field_simp
  try ring

theorem qmul_eq (a b : ℚ) : qmul a b = a * b := by
  unfold qmul
  rw [Rat.mkRat_eq_div]
  push_cast
  conv_rhs => rw [← Rat.num_div_den a, ← Rat.num_div_den b]
  have ha : ((a.den : ℚ)) ≠ 0 := by positivity
  have hb : ((b.den : ℚ)) ≠ 0 := by positivity
  field_simp
  try ring

theorem qneg_eq (a : ℚ) : qneg a = -a := by
  unfold qneg
  rw [Rat.mkRat_eq_div]
  push_cast
  conv_rhs => rw [← Rat.num_div_den a]
  field_simp

theorem qinv_eq (a : ℚ) : qinv a = a⁻¹ := (Rat.inv_def' a).symm

theorem qdiv_eq (a b : ℚ) : qdiv a b = a / b := by
  rw [qdiv, qmul_eq, qinv_eq, div_eq_mul_inv]

theorem qofInt_eq (n : Int) : qofInt n = (n : ℚ) := by
  unfold qofInt
  rw [Rat.mkRat_eq_div]
  simp

theorem qofNat_eq (n : Nat) : qofNat n = (n : ℚ) := by
  unfold qofNat
  rw [Rat.mkRat_eq_div]
  simp

theorem qsum_eq (l : List ℚ) : qsum l = l.sum := by
  induction l with
  | nil => rfl
  | cons x xs ih => rw [qsum, qadd_eq, ih, List.sum_cons]

/-! ## String helpers

Python-string operations used by the scripts, implemented on the character
data of `String` so that the kernel can evaluate them: `str.strip`,
lexicographic string comparison (as used by the pandas object-dtype sort on
the `type` column), and `int()` on digit strings (for `jalali_to_int`). -/

/-- `str(x)` on a nullable string field: pandas renders a missing value as
the string `"nan"`. -/
def strOf (s : Option String) : String := s.getD "nan"

/-- Leading/trailing-whitespace strip on a character list. -/
def stripChars (l : List Char) : List Char :=
  ((l.dropWhile Char.isWhitespace).reverse.dropWhile Char.isWhitespace).reverse

/-- Python `str.strip()`. -/
def pystrip (s : String) : String := String.mk (stripChars s.data)

/-- Lexicographic (code-point) order on character lists — Python string `<`. -/
def charsLt : List Char → List Char → Bool
  | _, [] => false
  | [], _ :: _ => true
  | a :: as, b :: bs => decide (a < b) || (decide (a = b) && charsLt as bs)

/-- Python string comparison `s < t`, as used by the pandas sort on the
object-dtype `type` column. -/
def pyStrLt (s t : String) : Bool := charsLt s.data t.data

/-- `int(s)` on a non-empty digit string (the only shape `jalali_to_int`
feeds it), with place values accumulated left to right. -/
def pyInt (l : List Char) : Option Int :=
  match l with
  | [] => none
  | _ =>
    (l.foldl
      (fun acc c =>
        match acc with
        | none => none
        | some n => if c.isDigit then some (n * 10 + (c.toNat - '0'.toNat)) else none)
      (some 0)).map Int.ofNat

/-- Remove every occurrence of a character (Python `str.replace(c, '')`). -/
def removeChar (c : Char) (s : String) : String :=
  String.mk (s.data.filter (fun d => decide (d ≠ c)))

/-! ## Stable insertion sort

`pandas.DataFrame.sort_values` with a list of keys performs a stable
lexicographic sort.  The builds below only rely on the resulting order, so any
sort producing a stably `le`-ordered permutation is a faithful model; an
insertion sort is used because the kernel can evaluate it. -/

/-- Insert `x` into `l`, before the first element `y` with `le x y`. -/
def insertLe {α : Type} (le : α → α → Bool) (x : α) : List α → List α
  | [] => [x]
  | y :: ys => if le x y then x :: y :: ys else y :: insertLe le x ys

/-- Stable insertion sort by the boolean relation `le`. -/
def sortByLe {α : Type} (le : α → α → Bool) : List α → List α
  | [] => []
  | x :: xs => insertLe le x (sortByLe le xs)

theorem insertLe_perm {α : Type} (le : α → α → Bool) (x : α) (l : List α) :
    List.Perm (insertLe le x l) (x :: l) := by
  induction l with
  | nil => rfl
  | cons y ys ih =>
    rw [insertLe]
    by_cases h : le x y = true
    · rw [if_pos h]
    · rw [if_neg h]
      exact List.Perm.trans (List.Perm.cons y ih) (List.Perm.swap x y ys)

theorem sortByLe_perm {α : Type} (le : α → α → Bool) (l : List α) :
    List.Perm (sortByLe le l) l := by
  induction l with
  | nil => rfl
  | cons x xs ih =>
    rw [sortByLe]
    exact List.Perm.trans (insertLe_perm le x (sortByLe le xs)) (List.Perm.cons x ih)

theorem mem_sortByLe {α : Type} (le : α → α → Bool) (l : List α) (a : α) :
    a ∈ sortByLe le l ↔ a ∈ l :=
  (sortByLe_perm le l).mem_iff

theorem insertLe_pairwise {α : Type} (le : α → α → Bool)
    (htot : ∀ a b, le a b = true ∨ le b a = true)
    (htrans : ∀ a b c, le a b = true → le b c = true → le a c = true)
    (x : α) (l : List α) (hl : l.Pairwise (fun a b => le a b = true)) :
    (insertLe le x l).Pairwise (fun a b => le a b = true) := by
  induction l with
  | nil => simp [insertLe]
  | cons y ys ih =>
    rw [insertLe]
    rcases List.pairwise_cons.mp hl with ⟨hy, hys⟩
    by_cases h : le x y = true
    · rw [if_pos h]
      refine List.pairwise_cons.mpr ⟨?_, hl⟩
      intro b hb
      rcases List.mem_cons.mp hb with hb | hb
      · exact hb ▸ h
      · exact htrans x y b h (hy b hb)
    · rw [if_neg h]
      have hyx : le y x = true := (htot x y).resolve_left h
      refine List.pairwise_cons.mpr ⟨?_, ih hys⟩
      intro b hb
      rcases List.mem_cons.mp ((insertLe_perm le x ys).mem_iff.mp hb) with hb | hb
      · exact hb ▸ hyx
      · exact hy b hb

theorem sortByLe_pairwise {α : Type} (le : α → α → Bool)
    (htot : ∀ a b, le a b = true ∨ le b a = true)
    (htrans : ∀ a b c, le a b = true → le b c = true → le a c = true)
    (l : List α) :
    (sortByLe le l).Pairwise (fun a b => le a b = true) := by
  induction l with
  | nil => simp [sortByLe]
  | cons x xs ih => exact insertLe_pairwise le htot htrans x (sortByLe le xs) ih

/-! ## Rounding

Python's builtin `round` (used on every numeric output column) rounds half to
even.  `round(x, n)` is modelled as exact decimal rounding of the rational
value. -/

/-- `⌊a⌋` for a rational, via flooring integer division (kernel-evaluable). -/
def qfloorInt (a : ℚ) : Int := Int.fdiv a.num (a.den : Int)

/-- Round to the nearest integer, ties to even — Python `round(x)`. -/
def roundHalfEven (a : ℚ) : Int :=
  let f := qfloorInt a
  let r := qsub a (qofInt f)
  if r < mkRat 1 2 then f
  else if mkRat 1 2 < r then f + 1
  else if f % 2 = 0 then f else f + 1

/-- Python `round(x, n)`. -/
def pyRound (a : ℚ) (n : Nat) : ℚ :=
  qdiv (qofInt (roundHalfEven (qmul a (qofNat (10 ^ n))))) (qofNat (10 ^ n))

/-! ## External numeric collaborators

`np.log`, `np.exp`, `np.sqrt`, `scipy.stats.norm.cdf` and `norm.pdf` are
library functions outside the repository; the embedding abstracts them as an
explicit record of rational-valued functions and quantifies over it. -/

structure MathFns where
  log : ℚ → ℚ
  exp : ℚ → ℚ
  sqrt : ℚ → ℚ
  cdf : ℚ → ℚ
  pdf : ℚ → ℚ

/-- Modelled from the spec: `scipy.optimize.brentq` is external to the
repository; per §4.1 of the spec it is a bracketed bisection/Brent-style
root-finder with a bounded iteration count that fails (rather than erring)
when the bracket shows no sign change or the iterations are exhausted, and
otherwise returns a point inside the bracket.  Bisection step on a fuel
budget. -/
def bisect (f : ℚ → ℚ) : ℚ → ℚ → Nat → Option ℚ
  | _, _, 0 => none
  | lo, hi, Nat.succ n =>
    let mid := qdiv (qadd lo hi) 2
    if f mid = 0 then some mid
    else if qmul (f lo) (f mid) < 0 then bisect f lo mid n
    else bisect f mid hi n

/-- Modelled from the spec: the bracketed root-finder entry point
(`scipy.optimize.brentq(f, a, b, maxiter)`), undefined when `f` has the same
strict sign at both ends of the bracket. -/
def brentq (f : ℚ → ℚ) (a b : ℚ) (maxiter : Nat) : Option ℚ :=
  if f a = 0 then some a
  else if f b = 0 then some b
  else if 0 < qmul (f a) (f b) then none
  else bisect f a b maxiter

/-! ## Tabular data model

Typed rows for the spreadsheet tables the scripts consume and produce, and an
environment of optional tables standing for the `Output/…` directory (`none`
is a missing file).  String-typed source cells that can hold a pandas missing
value are `Option String`; numeric cells that can hold `NaN` are `Option ℚ`. -/

inductive OptType where
  | CALL : OptType
  | PUT : OptType
deriving DecidableEq, Repr

/-- The `type` column value as the string the scripts compare and sort on. -/
def typeStr : OptType → String
  | OptType.CALL => "CALL"
  | OptType.PUT => "PUT"

/-- One row of `options_live.xlsx`. -/
structure LiveRow where
  underlying_isin : Option String
  strike : ℚ
  remained_day : Int
  real_time_price : ℚ
  last : Option ℚ
  type : OptType
  isin_put : Option String
  isin_call : Option String
  end_date : Option String
  underlying_real_time_price : Option ℚ
  ticker : String
  name : String
  begin_date : String
  count : Option Int
  volume : Option Int
  open_interest : Option Int
  underlying_ticker : String
  contract_size : Option Int
deriving DecidableEq, Repr

/-- One row of `underlying_live.xlsx`. -/
structure UnderlyingRow where
  isin : Option String
  real_time_price : Option ℚ
deriving DecidableEq, Repr

/-- One row of `underlying_history_252.xlsx`. -/
structure HistRow where
  isin : Option String
  date : String
  last : Option ℚ
deriving DecidableEq, Repr

/-- One row of `options_history_252.xlsx`. -/
structure HistOptRow where
  source_isin : Option String
  date : String
  last : Option ℚ
deriving DecidableEq, Repr

/-- One row of the enhanced chain output (`options_chain_enhanced.xlsx`),
with the fields `build_chain` emits. -/
structure ChainRow where
  contract_isin : String
  ticker : String
  name : String
  type : OptType
  strike : ℚ
  days_to_expiry : Int
  begin_date : String
  end_date : String
  market_price : ℚ
  last_price : ℚ
  theoretical_price : Option ℚ
  price_diff_pct : Option ℚ
  iv : Option ℚ
  delta : Option ℚ
  gamma : Option ℚ
  theta_daily : Option ℚ
  vega_per_1pct : Option ℚ
  rho_per_1pct : Option ℚ
  hv_30d : Option ℚ
  hv_90d : Option ℚ
  hv_252d : Option ℚ
  hv_selected : Option ℚ
  trade_count : Int
  volume : Int
  open_interest : Int
  underlying_price : ℚ
  underlying_isin : String
  underlying_name : String
  contract_size : Int
deriving DecidableEq, Repr

/-- One row of the IV-history output (`option_iv_history.xlsx`). -/
structure IVRecord where
  option_isin : String
  date : String
  option_price : ℚ
  underlying_price : ℚ
  strike : ℚ
  days_to_expiry : Int
  type : OptType
  implied_volatility : Option ℚ
  bs_price : Option ℚ
deriving DecidableEq, Repr

instance : Inhabited IVRecord :=
  ⟨⟨"", "", 0, 0, 0, 0, OptType.CALL, none, none⟩⟩

/-- The file-system state the two builders see: each table is `some rows`
when its file exists.  `hash_file` is the content of the chain builder's
`.hash` sidecar; `live_hash` is the digest `file_hash` computes for the
current `options_live.xlsx` (the digest function itself is external I/O and
enters only through equality with the sidecar). -/
structure Env where
  options_live : Option (List LiveRow)
  underlying_history : Option (List HistRow)
  underlying_live : Option (List UnderlyingRow)
  options_history : Option (List HistOptRow)
  output_chain : Option (List ChainRow)
  output_iv : Option (List IVRecord)
  hash_file : Option String
  live_hash : String
deriving DecidableEq, Repr

/-- `pd.read_excel` on an optional file: raises `FileNotFoundError` when the
file is absent. -/
def readExcel {α : Type} (t : Option α) (fname : String) : Except String α :=
  match t with
  | some x => Except.ok x
  | none => Except.error ("FileNotFoundError: " ++ fname)

namespace ChainCalc

/-! ## `Scripts/chain_calculator.py` -/

def RISK_FREE_RATE : ℚ := mkRat 9 25

def MIN_IV : ℚ := mkRat 1 100

def MAX_IV : ℚ := 5

/-- `bs_price` of `chain_calculator.py` (lines 26-38): Black-Scholes price,
`0` on any non-positive input.  The `try/except` around the closed-form body
cannot fire in exact arithmetic (the guard keeps every divisor nonzero). -/
def bs_price (m : MathFns) (S K T r sigma : ℚ) (option_type : OptType) : ℚ :=
  if T ≤ 0 ∨ sigma ≤ 0 ∨ S ≤ 0 ∨ K ≤ 0 then 0
  else
    let d1 := qdiv (qadd (m.log (qdiv S K)) (qmul (qadd r (qmul (mkRat 1 2) (qmul sigma sigma))) T))
      (qmul sigma (m.sqrt T))
    let d2 := qsub d1 (qmul sigma (m.sqrt T))
    match option_type with
    | OptType.CALL =>
      qsub (qmul S (m.cdf d1)) (qmul (qmul K (m.exp (qneg (qmul r T)))) (m.cdf d2))
    | OptType.PUT =>
      qsub (qmul (qmul K (m.exp (qneg (qmul r T)))) (m.cdf (qneg d2))) (qmul S (m.cdf (qneg d1)))

/-- `implied_volatility` of `chain_calculator.py` (lines 40-50): bracketed
solve over `[MIN_IV, MAX_IV]` with 100 iterations; `NaN` (here `none`) on
degenerate inputs or solver failure. -/
def implied_volatility (m : MathFns) (price S K T r : ℚ) (option_type : OptType) : Option ℚ :=
  if price ≤ 0 ∨ T ≤ 0 ∨ S ≤ 0 ∨ K ≤ 0 then none
  else brentq (fun sigma => qsub (bs_price m S K T r sigma option_type) price) MIN_IV MAX_IV 100

/-- The five sensitivities returned by `calculate_greeks`; a field is `none`
when the corresponding dictionary entry is `NaN`. -/
structure Greeks where
  delta : Option ℚ
  gamma : Option ℚ
  theta : Option ℚ
  vega : Option ℚ
  rho : Option ℚ
deriving DecidableEq, Repr

/-- The all-`NaN` dictionary of the degenerate branch. -/
def greeksNaN : Greeks := ⟨none, none, none, none, none⟩

/-- The local `d1` of `calculate_greeks` (line 57). -/
def greeks_d1 (m : MathFns) (S K T r sigma : ℚ) : ℚ :=
  qdiv (qadd (m.log (qdiv S K)) (qmul (qadd r (qmul (mkRat 1 2) (qmul sigma sigma))) T))
    (qmul sigma (m.sqrt T))

/-- The local `d2` of `calculate_greeks` (line 58). -/
def greeks_d2 (m : MathFns) (S K T r sigma : ℚ) : ℚ :=
  qsub (greeks_d1 m S K T r sigma) (qmul sigma (m.sqrt T))

/-- The local `delta` (lines 61/65). -/
def greeks_delta (m : MathFns) (S K T r sigma : ℚ) : OptType → ℚ
  | OptType.CALL => m.cdf (greeks_d1 m S K T r sigma)
  | OptType.PUT => qsub (m.cdf (greeks_d1 m S K T r sigma)) 1

/-- The local `gamma` (line 69). -/
def greeks_gamma (m : MathFns) (S K T r sigma : ℚ) : ℚ :=
  qdiv (m.pdf (greeks_d1 m S K T r sigma)) (qmul (qmul S sigma) (m.sqrt T))

/-- The local annualized `theta` (lines 62/66), before the ÷365 scaling. -/
def greeks_theta_annual (m : MathFns) (S K T r sigma : ℚ) : OptType → ℚ
  | OptType.CALL =>
    qsub (qneg (qdiv (qmul (qmul S (m.pdf (greeks_d1 m S K T r sigma))) sigma) (qmul 2 (m.sqrt T))))
      (qmul (qmul (qmul r K) (m.exp (qneg (qmul r T)))) (m.cdf (greeks_d2 m S K T r sigma)))
  | OptType.PUT =>
    qadd (qneg (qdiv (qmul (qmul S (m.pdf (greeks_d1 m S K T r sigma))) sigma) (qmul 2 (m.sqrt T))))
      (qmul (qmul (qmul r K) (m.exp (qneg (qmul r T)))) (m.cdf (qneg (greeks_d2 m S K T r sigma))))

/-- The local per-unit `vega` (line 70), before the ÷100 scaling. -/
def greeks_vega_raw (m : MathFns) (S K T r sigma : ℚ) : ℚ :=
  qmul (qmul S (m.pdf (greeks_d1 m S K T r sigma))) (m.sqrt T)

/-- The local per-unit `rho` (lines 63/67), before the ÷100 scaling. -/
def greeks_rho_raw (m : MathFns) (S K T r sigma : ℚ) : OptType → ℚ
  | OptType.CALL =>
    qmul (qmul (qmul K T) (m.exp (qneg (qmul r T)))) (m.cdf (greeks_d2 m S K T r sigma))
  | OptType.PUT =>
    qneg (qmul (qmul (qmul K T) (m.exp (qneg (qmul r T)))) (m.cdf (qneg (greeks_d2 m S K T r sigma))))

/-- `calculate_greeks` of `chain_calculator.py` (lines 52-80): the dictionary
`{delta, gamma, theta/365, vega/100, rho/100}`, or the all-`NaN` dictionary on
the degenerate guard.  As in `bs_price`, the `except` branch is unreachable in
exact arithmetic. -/
def calculate_greeks (m : MathFns) (S K T r sigma : ℚ) (option_type : OptType) : Greeks :=
  if T ≤ 0 ∨ sigma ≤ MIN_IV ∨ S ≤ 0 ∨ K ≤ 0 then greeksNaN
  else
    { delta := some (greeks_delta m S K T r sigma option_type)
      gamma := some (greeks_gamma m S K T r sigma)
      theta := some (qdiv (greeks_theta_annual m S K T r sigma option_type) 365)
      vega := some (qdiv (greeks_vega_raw m S K T r sigma) 100)
      rho := some (qdiv (greeks_rho_raw m S K T r sigma option_type) 100) }

/-! ### Historical volatility (`calculate_hv`, lines 118-170)

The date column is normalized through
`astype(str).str.replace('/', '').astype(int)`; rows whose date fails the
conversion are modelled as dropped (the script's column-level
`errors='ignore'` quirk can only make the whole build raise, never change a
converted value). -/

/-- Per-cell date conversion of `calculate_hv` (line 132). -/
def chainDateInt (s : String) : Option Int := pyInt ((removeChar '/' s).data)

/-- Exact-ISIN filter of the history frame (line 124). -/
def hv_filtered (df_hist : List HistRow) (u_isin : String) : List HistRow :=
  df_hist.filter (fun r => decide (pystrip (strOf r.isin) = pystrip u_isin))

/-- Date-converted `(date_int, last)` pairs after `dropna` (lines 132-134). -/
def hv_dated (df_hist : List HistRow) (u_isin : String) : List (Int × Option ℚ) :=
  (hv_filtered df_hist u_isin).filterMap (fun r => (chainDateInt r.date).map (fun d => (d, r.last)))

/-- Keep the first row of each date key (`drop_duplicates('date_int')`). -/
def dedupKeys : List Int → List (Int × Option ℚ) → List (Int × Option ℚ)
  | _, [] => []
  | seen, x :: xs =>
    if x.1 ∈ seen then dedupKeys seen xs else x :: dedupKeys (x.1 :: seen) xs

/-- Sort by date and deduplicate (line 135). -/
def hv_deduped (df_hist : List HistRow) (u_isin : String) : List (Int × Option ℚ) :=
  dedupKeys [] (sortByLe (fun a b => decide (a.1 ≤ b.1)) (hv_dated df_hist u_isin))

/-- The valid positive price series (lines 143-145). -/
def hv_prices (df_hist : List HistRow) (u_isin : String) : List ℚ :=
  ((hv_deduped df_hist u_isin).filterMap (fun p => p.2)).filter (fun p => decide (0 < p))

/-- The log-return series `log(price / price.shift(1))` after `dropna`
(lines 152-153). -/
def hv_rets (m : MathFns) (df_hist : List HistRow) (u_isin : String) : List ℚ :=
  List.zipWith (fun cur prev => m.log (qdiv cur prev))
    (hv_prices df_hist u_isin).tail (hv_prices df_hist u_isin)

/-- The last `k` entries of a list (`rets[-k:]`). -/
def lastN {α : Type} (l : List α) (k : Nat) : List α := l.drop (l.length - k)

/-- Sample variance with `ddof = 1`, the quantity under pandas `Series.std`. -/
def sampleVar (xs : List ℚ) : ℚ :=
  let mu := qdiv (qsum xs) (qofNat xs.length)
  qdiv (qsum (xs.map (fun x => qmul (qsub x mu) (qsub x mu)))) (qsub (qofNat xs.length) 1)

/-- pandas `Series.std()` (`ddof = 1`): `NaN` on fewer than two
observations. -/
def pdStd (m : MathFns) (xs : List ℚ) : Option ℚ :=
  if xs.length ≤ 1 then none else some (m.sqrt (sampleVar xs))

/-- The 4-tuple `calculate_hv` returns. -/
structure HVOut where
  v30 : Option ℚ
  v90 : Option ℚ
  v252 : Option ℚ
  selected : Option ℚ
deriving DecidableEq, Repr

/-- `calculate_hv` of `chain_calculator.py` (lines 118-170). -/
def calculate_hv (m : MathFns) (df_hist : List HistRow) (u_isin : String) : HVOut :=
  if (hv_filtered df_hist u_isin).length < 2 then ⟨none, none, none, none⟩
  else if (hv_prices df_hist u_isin).length < 2 then ⟨none, none, none, none⟩
  else
    let rets := hv_rets m df_hist u_isin
    if rets.length = 0 then ⟨none, none, none, none⟩
    else
      let sqrt252 := m.sqrt 252
      let v30 := if 30 ≤ rets.length then (pdStd m (lastN rets 30)).map (fun s => qmul s sqrt252) else none
      let v90 := if 90 ≤ rets.length then (pdStd m (lastN rets 90)).map (fun s => qmul s sqrt252) else none
      let v252 := (pdStd m rets).map (fun s => qmul s sqrt252)
      let valid := [v30, v90, v252].filterMap id
      let selected := if valid.length = 0 then mkRat 3 10 else qdiv (qsum valid) (qofNat valid.length)
      ⟨v30, v90, v252, some selected⟩

/-! ### Build gating and the chain build (lines 93-316) -/

/-- `should_rebuild` of `chain_calculator.py` (lines 93-109).  The
`current_hash is None` branch is unreachable once the live file exists, and a
sidecar read error behaves like a missing sidecar (both rebuild). -/
def should_rebuild (env : Env) : Bool :=
  match env.output_chain with
  | none => true
  | some _ =>
    match env.options_live with
    | none => false
    | some _ =>
      match env.hash_file with
      | none => true
      | some saved => decide (env.live_hash ≠ saved)

/-- The `underlying_price_map` dict (lines 217-222); prepending on insert
makes `List.lookup` return the last write, as the dict does. -/
def underlying_price_map (und : List UnderlyingRow) : List (String × Option ℚ) :=
  und.foldl
    (fun acc r =>
      let isin := pystrip (strOf r.isin)
      if isin = "nan" ∨ isin = "" then acc else (isin, r.real_time_price) :: acc)
    []

/-- The set of stripped ISINs present in the history frame (line 201). -/
def hist_isins (df_hist : List HistRow) : List String :=
  df_hist.map (fun r => pystrip (strOf r.isin))

/-- The `hv_cache` of `build_chain` (lines 195-214) viewed as a lookup: with
an empty history the cache is empty and `dict.get` yields the
`(nan, nan, nan, 0.3)` default; an underlying absent from the history gets the
same default; otherwise `calculate_hv` runs.  (`build_chain` only queries it
with non-`nan`, non-empty ISINs, which the loop would have cached.) -/
def hv_cache_lookup (m : MathFns) (df_hist : List HistRow) (u_isin : String) : HVOut :=
  if df_hist.isEmpty then ⟨none, none, none, some (mkRat 3 10)⟩
  else if u_isin ∈ hist_isins df_hist then calculate_hv m df_hist u_isin
  else ⟨none, none, none, some (mkRat 3 10)⟩

/-- The per-contract body of the `build_chain` loop (lines 229-297); `none`
is a `continue` (the skip counter).  A `NaN` σ fallback (undefined selected
HV) propagates as `none` through the theoretical price, deviation and Greeks,
exactly as float `NaN` does through those formulas' guards. -/
def processLiveRow (m : MathFns) (pmap : List (String × Option ℚ)) (df_hist : List HistRow)
    (r : LiveRow) : Option ChainRow :=
  let u_isin := pystrip (strOf r.underlying_isin)
  if u_isin = "nan" ∨ u_isin = "" then none
  else
    let S_fallback : Option ℚ := r.underlying_real_time_price
    let S_opt : Option ℚ :=
      match List.lookup u_isin pmap with
      | some v => v
      | none => S_fallback
    match S_opt with
    | none => none
    | some S =>
      if S ≤ 0 then none
      else
        let K := r.strike
        let T := qdiv (qofInt r.remained_day) 365
        let price := r.real_time_price
        let last := r.last.getD price
        let typ := r.type
        let isin := pystrip (strOf (match typ with
          | OptType.PUT => r.isin_put
          | OptType.CALL => r.isin_call))
        if T ≤ 0 ∨ price ≤ 0 then none
        else
          let iv := implied_volatility m price S K T RISK_FREE_RATE typ
          let hv := hv_cache_lookup m df_hist u_isin
          let sigma : Option ℚ :=
            match iv with
            | some v => some v
            | none => hv.selected
          let theo : Option ℚ := sigma.map (fun s => bs_price m S K T RISK_FREE_RATE s typ)
          let diff : Option ℚ :=
            match theo with
            | some t => if 0 < t then some (qdiv (qsub last t) t) else none
            | none => none
          let g : Greeks :=
            match sigma with
            | some s => calculate_greeks m S K T RISK_FREE_RATE s typ
            | none => greeksNaN
          some
            { contract_isin := isin
              ticker := r.ticker
              name := r.name
              type := typ
              strike := K
              days_to_expiry := r.remained_day
              begin_date := r.begin_date
              end_date := strOf r.end_date
              market_price := pyRound price 0
              last_price := pyRound last 0
              theoretical_price := theo.map (fun t => pyRound t 2)
              price_diff_pct := diff.map (fun d => pyRound d 4)
              iv := iv.map (fun v => pyRound v 4)
              delta := g.delta.map (fun v => pyRound v 4)
              gamma := g.gamma.map (fun v => pyRound v 4)
              theta_daily := g.theta.map (fun v => pyRound v 4)
              vega_per_1pct := g.vega.map (fun v => pyRound v 4)
              rho_per_1pct := g.rho.map (fun v => pyRound v 4)
              hv_30d := hv.v30.map (fun v => pyRound v 4)
              hv_90d := hv.v90.map (fun v => pyRound v 4)
              hv_252d := hv.v252.map (fun v => pyRound v 4)
              hv_selected := hv.selected.map (fun v => pyRound v 4)
              trade_count := r.count.getD 0
              volume := r.volume.getD 0
              open_interest := r.open_interest.getD 0
              underlying_price := pyRound S 0
              underlying_isin := u_isin
              underlying_name := r.underlying_ticker
              contract_size := r.contract_size.getD 1000 }

/-- The three-key order of the
`sort_values(['days_to_expiry', 'type', 'strike'], ascending=[True, False, True])`
call (line 309): days-to-expiry ascending, then the `type` string
*descending*, then strike ascending. -/
@[reducible] def chainKeyLE (a b : ChainRow) : Prop :=
  a.days_to_expiry < b.days_to_expiry ∨
    (a.days_to_expiry = b.days_to_expiry ∧
      (pyStrLt (typeStr b.type) (typeStr a.type) = true ∨
        (typeStr a.type = typeStr b.type ∧ a.strike ≤ b.strike)))

def chainLe (a b : ChainRow) : Bool := decide (chainKeyLE a b)

/-- The freshly computed, sorted chain table of a rebuild (lines 185-309).
The `if not rows` early return produces the same empty table. -/
def chainTableOf (m : MathFns) (live : List LiveRow) (df_hist : List HistRow)
    (und : List UnderlyingRow) : List ChainRow :=
  sortByLe chainLe (live.filterMap (processLiveRow m (underlying_price_map und) df_hist))

/-- `build_chain` of `chain_calculator.py` (lines 173-316): serve the
existing artifact when not stale, return an empty table when the live input
is missing, otherwise rebuild (a missing history or underlying-live file
degrades to an empty frame, lines 188-191). -/
def build_chain (m : MathFns) (env : Env) : Except String (List ChainRow) :=
  if should_rebuild env = false then readExcel env.output_chain "options_chain_enhanced.xlsx"
  else
    match env.options_live with
    | none => Except.ok []
    | some live =>
      let df_hist := env.underlying_history.getD []
      let und := env.underlying_live.getD []
      Except.ok (chainTableOf m live df_hist und)

end ChainCalc

namespace IvCalc

/-! ## `Scripts/iv_calculator.py` -/

def RISK_FREE_RATE : ℚ := mkRat 9 25

def MIN_IV : ℚ := mkRat 1 1000000

def MAX_IV : ℚ := 5

/-- `bs_price` of `iv_calculator.py` (lines 22-27): as the chain variant but
with no `try/except`. -/
def bs_price (m : MathFns) (S K T r sigma : ℚ) (typ : OptType) : ℚ :=
  if T ≤ 0 ∨ sigma ≤ 0 ∨ S ≤ 0 ∨ K ≤ 0 then 0
  else
    let d1 := qdiv (qadd (m.log (qdiv S K)) (qmul (qadd r (qmul (mkRat 1 2) (qmul sigma sigma))) T))
      (qmul sigma (m.sqrt T))
    let d2 := qsub d1 (qmul sigma (m.sqrt T))
    match typ with
    | OptType.CALL =>
      qsub (qmul S (m.cdf d1)) (qmul (qmul K (m.exp (qneg (qmul r T)))) (m.cdf d2))
    | OptType.PUT =>
      qsub (qmul (qmul K (m.exp (qneg (qmul r T)))) (m.cdf (qneg d2))) (qmul S (m.cdf (qneg d1)))

/-- `implied_volatility` of `iv_calculator.py` (lines 29-34): the tighter
`[1e-6, 5.0]` bracket of the historical path. -/
def implied_volatility (m : MathFns) (price S K T r : ℚ) (typ : OptType) : Option ℚ :=
  if price ≤ 0 ∨ T ≤ 0 ∨ S ≤ 0 ∨ K ≤ 0 then none
  else brentq (fun sigma => qsub (bs_price m S K T r sigma typ) price) MIN_IV MAX_IV 100

/-- `jalali_to_int` of `iv_calculator.py` (lines 37-40): strip the slashes and
whitespace, keep eight-character results.  (On a non-digit eight-character
string `int()` would raise; modelled as `none`, a case no claim exercises.) -/
def jalali_to_int (s : Option String) : Option Int :=
  match s with
  | none => none
  | some s0 =>
    let t := pystrip (removeChar '/' s0)
    if t.data.length = 8 then pyInt t.data else none

/-- Maximum of a list of normalized dates. -/
def maxInt (l : List Int) : Option Int :=
  l.foldl
    (fun acc x =>
      match acc with
      | none => some x
      | some a => some (max a x))
    none

/-- `should_rebuild` of `iv_calculator.py` (lines 43-53): rebuild when the
output or history-input file is missing, or when the input's maximum
normalized date exceeds the output's (`pd.isna(saved) or current > saved`).
The script reaches the dates through `DataFrame.apply(..., axis=1)`, whose
row-`Series` argument makes every conversion `NaN` and therefore always
rebuilds; the model keeps the per-cell intent, and no claim below depends on
the comparison branch. -/
def should_rebuild (env : Env) : Bool :=
  match env.output_iv with
  | none => true
  | some out =>
    match env.options_history with
    | none => true
    | some hist =>
      let current := maxInt (hist.filterMap (fun r => jalali_to_int (some r.date)))
      let saved := maxInt (out.filterMap (fun r => jalali_to_int (some r.date)))
      match saved, current with
      | none, _ => true
      | some _, none => false
      | some s, some c => decide (s < c)

/-- The `contract_map` entry for one option ISIN (lines 105/112). -/
structure ContractInfo where
  strike : ℚ
  end_int : Int
  type : OptType
deriving DecidableEq, Repr

/-- The `contract_map` and `isin_to_underlying` dicts of `build_iv_history`
(lines 90-116), with prepend-plus-`lookup` giving the dict's last-write-wins
semantics.  A row whose `end_date` fails conversion is skipped whole; a PUT
ISIN is taken through `str()` (so a missing value becomes `"nan"` and is
filtered), a CALL ISIN additionally requires `pd.notna`. -/
def contract_maps (live : List LiveRow) :
    List (String × ContractInfo) × List (String × String) :=
  live.foldl
    (fun acc row =>
      match jalali_to_int row.end_date with
      | none => acc
      | some end_int =>
        let u_isin := pystrip (strOf row.underlying_isin)
        let isin_put := pystrip (strOf row.isin_put)
        let acc1 :=
          if isin_put = "nan" ∨ isin_put = "" ∨ isin_put = "<NA>" then acc
          else ((isin_put, ⟨row.strike, end_int, OptType.PUT⟩) :: acc.1,
            (isin_put, u_isin) :: acc.2)
        let isin_call := pystrip (strOf row.isin_call)
        if row.isin_call.isSome ∧ ¬(isin_call = "nan" ∨ isin_call = "" ∨ isin_call = "<NA>") then
          ((isin_call, ⟨row.strike, end_int, OptType.CALL⟩) :: acc1.1,
            (isin_call, u_isin) :: acc1.2)
        else acc1)
    ([], [])

/-- The `(date_int, isin)` index over the underlying history (lines 135-139):
rows with a missing ISIN or unconvertible date are dropped
(`dropna(subset=['date_int', 'isin'])`). -/
def und_index (hist_und : List HistRow) : List (Int × String × Option ℚ) :=
  hist_und.filterMap (fun r =>
    match jalali_to_int (some r.date), r.isin with
    | some d, some i => some (d, pystrip i, r.last)
    | _, _ => none)

/-- The historical-options filter of lines 124-126: drop rows missing
`source_isin` or an unconvertible date; keep rows whose stripped ISIN is in
the contract map. -/
def hist_opt_filtered (cmap : List (String × ContractInfo)) (histOpt : List HistOptRow) :
    List HistOptRow :=
  histOpt.filter (fun o =>
    o.source_isin.isSome && (jalali_to_int (some o.date)).isSome &&
      (List.lookup (pystrip (strOf o.source_isin)) cmap).isSome)

/-- The per-row body of the IV loop (lines 147-186); `none` is a `continue`.
A duplicated `(date, isin)` index key makes the script's `float(...)` raise
into the `except: continue`; `find?` keeps the first match, which agrees on
every unduplicated index. -/
def processHistOpt (m : MathFns) (cmap : List (String × ContractInfo))
    (iu : List (String × String)) (undIdx : List (Int × String × Option ℚ))
    (opt : HistOptRow) : Option IVRecord :=
  match jalali_to_int (some opt.date) with
  | none => none
  | some date_int =>
    let isin_opt := pystrip (strOf opt.source_isin)
    match List.lookup isin_opt cmap with
    | none => none
    | some info =>
      if info.end_int ≤ date_int then none
      else
        let T := qdiv (qofInt (info.end_int - date_int)) 365
        let price := opt.last.getD 0
        if price ≤ 0 then none
        else
          match List.lookup isin_opt iu with
          | none => none
          | some u_isin =>
            if u_isin = "" then none
            else
              match undIdx.find? (fun e => decide (e.1 = date_int) && decide (e.2.1 = u_isin)) with
              | none => none
              | some e =>
                let S := e.2.2.getD 0
                if S ≤ 0 then none
                else
                  let iv := implied_volatility m price S info.strike T RISK_FREE_RATE info.type
                  let bs := iv.map (fun s => bs_price m S info.strike T RISK_FREE_RATE s info.type)
                  some
                    { option_isin := isin_opt
                      date := opt.date
                      option_price := pyRound price 2
                      underlying_price := pyRound S 2
                      strike := info.strike
                      days_to_expiry := info.end_int - date_int
                      type := info.type
                      implied_volatility := iv.map (fun v => pyRound v 4)
                      bs_price := bs.map (fun v => pyRound v 2) }

/-- The `(option_isin, date)` ascending sort order of line 195. -/
@[reducible] def recKeyLE (a b : IVRecord) : Prop :=
  pyStrLt a.option_isin b.option_isin = true ∨
    (a.option_isin = b.option_isin ∧ (pyStrLt a.date b.date = true ∨ a.date = b.date))

def recLe (a b : IVRecord) : Bool := decide (recKeyLE a b)

/-- The freshly built IV-history table (lines 77-195): contract maps from the
live table, filter, per-row solve, sort.  The empty-after-filter and
no-records early returns produce the same empty table. -/
def ivRecordsOf (m : MathFns) (live : List LiveRow) (histOpt : List HistOptRow)
    (histUnd : List HistRow) : List IVRecord :=
  let maps := contract_maps live
  let filtered := hist_opt_filtered maps.1 histOpt
  sortByLe recLe (filtered.filterMap (processHistOpt m maps.1 maps.2 (und_index histUnd)))

/-- `build_iv_history` of `iv_calculator.py` (lines 56-199): serve the output
when not stale, otherwise load the three inputs — `pd.read_excel` raises on a
missing file, there is no guard — and build. -/
def build_iv_history (m : MathFns) (env : Env) : Except String (List IVRecord) :=
  if should_rebuild env = false then readExcel env.output_iv "option_iv_history.xlsx"
  else
    match readExcel env.options_live "options_live.xlsx" with
    | Except.error e => Except.error e
    | Except.ok live =>
      match readExcel env.options_history "options_history_252.xlsx" with
      | Except.error e => Except.error e
      | Except.ok histOpt =>
        match readExcel env.underlying_history "underlying_history_252.xlsx" with
        | Except.error e => Except.error e
        | Except.ok histUnd => Except.ok (ivRecordsOf m live histOpt histUnd)

end IvCalc

namespace Updater

/-! ## `server/data_updater.py`

The scheduler's `_run_pipeline` (lines 71-107).  `_run_step` wraps each
stage in `try/except` and reports a boolean, so stage execution is abstracted
as a boolean oracle `run_step`; wall-clock readings are passed in as the
`end_time` rational and the formatted `now` string. -/

/-- The fixed stage sequence (`self.steps`, lines 27-32). -/
def steps : List String :=
  ["data_fetcher", "date_processor", "chain_calculator", "iv_calculator"]

/-- The scheduler state `_run_pipeline` writes back under the lock. -/
structure PipelineResult where
  trace : List (String × Bool)
  success_count : Nat
  status : String
  last_update : String
  next_run_time : ℚ
deriving DecidableEq, Repr

/-- The status string of line 100. -/
def statusOf (c t : Nat) : String :=
  if c = t then "Success (" ++ toString c ++ "/" ++ toString t ++ ")"
  else "Failed (" ++ toString c ++ "/" ++ toString t ++ ")"

/-- The `for name, path in self.steps` loop (lines 86-91), recording each
stage outcome in order and tallying successes. -/
def stepFold (run_step : String → Bool) (l : List String) : List (String × Bool) × Nat :=
  l.foldl
    (fun acc name =>
      let ok := run_step name
      (acc.1 ++ [(name, ok)], if ok then acc.2 + 1 else acc.2))
    ([], 0)

/-- `_run_pipeline` (lines 71-107): run every stage in order, then record
`last_update`, the `successes/total` status string and
`next_run = end_time + interval`. -/
def run_pipeline (run_step : String → Bool) (end_time interval : ℚ) (now : String) :
    PipelineResult :=
  let folded := stepFold run_step steps
  { trace := folded.1
    success_count := folded.2
    status := statusOf folded.2 steps.length
    last_update := now
    next_run_time := qadd end_time interval }

end Updater

/-! ## Supporting lemmas -/

/-- Rank of the kind label under the descending string order of the sort:
`"PUT" > "CALL"` lexicographically, so PUT sorts first. -/
def kindRank : OptType → Nat
  | OptType.PUT => 0
  | OptType.CALL => 1

theorem pyStrLt_typeStr (x y : OptType) :
    (pyStrLt (typeStr y) (typeStr x) = true) ↔ kindRank x < kindRank y := by
  cases x <;> cases y <;> decide

theorem typeStr_inj (x y : OptType) : typeStr x = typeStr y ↔ x = y := by
  cases x <;> cases y <;> decide

theorem kindRank_inj (x y : OptType) : kindRank x = kindRank y ↔ x = y := by
  cases x <;> cases y <;> decide

theorem chainKeyLE_iff (a b : ChainRow) :
    ChainCalc.chainKeyLE a b ↔
      (a.days_to_expiry < b.days_to_expiry ∨
        (a.days_to_expiry = b.days_to_expiry ∧
          (kindRank a.type < kindRank b.type ∨
            (a.type = b.type ∧ a.strike ≤ b.strike)))) := by
  unfold ChainCalc.chainKeyLE
  rw [pyStrLt_typeStr a.type b.type, typeStr_inj a.type b.type]

theorem chainLe_total (a b : ChainRow) :
    ChainCalc.chainLe a b = true ∨ ChainCalc.chainLe b a = true := by
  simp only [ChainCalc.chainLe, decide_eq_true_eq]
  rw [chainKeyLE_iff, chainKeyLE_iff]
  rcases lt_trichotomy a.days_to_expiry b.days_to_expiry with h | h | h
  · exact Or.inl (Or.inl h)
  · rcases lt_trichotomy (kindRank a.type) (kindRank b.type) with hk | hk | hk
    · exact Or.inl (Or.inr ⟨h, Or.inl hk⟩)
    · have ht : a.type = b.type := (kindRank_inj a.type b.type).mp hk
      rcases le_total a.strike b.strike with hs | hs
      · exact Or.inl (Or.inr ⟨h, Or.inr ⟨ht, hs⟩⟩)
      · exact Or.inr (Or.inr ⟨h.symm, Or.inr ⟨ht.symm, hs⟩⟩)
    · exact Or.inr (Or.inr ⟨h.symm, Or.inl hk⟩)
  · exact Or.inr (Or.inl h)

theorem chainLe_trans (a b c : ChainRow) :
    ChainCalc.chainLe a b = true → ChainCalc.chainLe b c = true →
      ChainCalc.chainLe a c = true := by
  intro hab hbc
  simp only [ChainCalc.chainLe, decide_eq_true_eq] at hab hbc ⊢
  rw [chainKeyLE_iff] at hab hbc ⊢
  rcases hab with h1 | ⟨h1e, h1i⟩
  · rcases hbc with h2 | ⟨h2e, _⟩
    · exact Or.inl (lt_trans h1 h2)
    · exact Or.inl (by rw [← h2e]; exact h1)
  · rcases hbc with h2 | ⟨h2e, h2i⟩
    · exact Or.inl (by rw [h1e]; exact h2)
    · refine Or.inr ⟨h1e.trans h2e, ?_⟩
      rcases h1i with hk1 | ⟨hke1, hs1⟩
      · rcases h2i with hk2 | ⟨hke2, _⟩
        · exact Or.inl (lt_trans hk1 hk2)
        · exact Or.inl (by rw [← hke2]; exact hk1)
      · rcases h2i with hk2 | ⟨hke2, hs2⟩
        · exact Or.inl (by rw [hke1]; exact hk2)
        · exact Or.inr ⟨hke1.trans hke2, le_trans hs1 hs2⟩

/-- The three-key adjacent-pair order the claim asserts (CALL before PUT
within equal days-to-expiry). -/
@[reducible] def chainPairClaim (a b : ChainRow) : Prop :=
  a.days_to_expiry ≤ b.days_to_expiry ∧
    (a.days_to_expiry = b.days_to_expiry → ¬(a.type = OptType.PUT ∧ b.type = OptType.CALL)) ∧
    ((a.days_to_expiry = b.days_to_expiry ∧ a.type = b.type) → a.strike ≤ b.strike)

instance : DecidableRel chainPairClaim := fun _ _ => instDecidableAnd

/-- The three-key adjacent-pair order the code produces (PUT before CALL
within equal days-to-expiry, the descending label order). -/
@[reducible] def chainPairCode (a b : ChainRow) : Prop :=
  a.days_to_expiry ≤ b.days_to_expiry ∧
    (a.days_to_expiry = b.days_to_expiry → ¬(a.type = OptType.CALL ∧ b.type = OptType.PUT)) ∧
    ((a.days_to_expiry = b.days_to_expiry ∧ a.type = b.type) → a.strike ≤ b.strike)

instance : DecidableRel chainPairCode := fun _ _ => instDecidableAnd

theorem chainLe_imp_pairCode (a b : ChainRow) :
    ChainCalc.chainLe a b = true → chainPairCode a b := by
  intro h
  simp only [ChainCalc.chainLe, decide_eq_true_eq] at h
  rw [chainKeyLE_iff] at h
  refine ⟨?_, ?_, ?_⟩
  · rcases h with h | ⟨he, _⟩
    · exact le_of_lt h
    · exact le_of_eq he
  · intro heq hpc
    rcases h with h | ⟨_, hi⟩
    · exact absurd heq (ne_of_lt h)
    · rcases hi with hk | ⟨hte, _⟩
      · rw [hpc.1, hpc.2] at hk
        exact absurd hk (by decide)
      · rw [hpc.1, hpc.2] at hte
        exact OptType.noConfusion hte
  · intro hpair
    rcases h with h | ⟨_, hi⟩
    · exact absurd hpair.1 (ne_of_lt h)
    · rcases hi with hk | ⟨_, hs⟩
      · rw [hpair.2] at hk
        exact absurd hk (lt_irrefl _)
      · exact hs

theorem bisect_bracket (f : ℚ → ℚ) :
    ∀ (n : Nat) (lo hi x : ℚ), lo ≤ hi → bisect f lo hi n = some x →
      lo ≤ x ∧ x ≤ hi := by
  intro n
  induction n with
  | zero =>
    intro lo hi x _ hb
    simp [bisect] at hb
  | succ k ih =>
    intro lo hi x h hb
    simp only [bisect] at hb
    have hmid_lo : lo ≤ qdiv (qadd lo hi) 2 := by
      rw [qdiv_eq, qadd_eq]
      linarith
    have hmid_hi : qdiv (qadd lo hi) 2 ≤ hi := by
      rw [qdiv_eq, qadd_eq]
      linarith
    by_cases h0 : f (qdiv (qadd lo hi) 2) = 0
    · rw [if_pos h0] at hb
      cases hb
      exact ⟨hmid_lo, hmid_hi⟩
    · rw [if_neg h0] at hb
      by_cases h1 : qmul (f lo) (f (qdiv (qadd lo hi) 2)) < 0
      · rw [if_pos h1] at hb
        rcases ih lo _ x hmid_lo hb with ⟨ha, hx⟩
        exact ⟨ha, le_trans hx hmid_hi⟩
      · rw [if_neg h1] at hb
        rcases ih _ hi x hmid_hi hb with ⟨ha, hx⟩
        exact ⟨le_trans hmid_lo ha, hx⟩

theorem brentq_bracket (f : ℚ → ℚ) (a b : ℚ) (n : Nat) (x : ℚ) (h : a ≤ b) :
    brentq f a b n = some x → a ≤ x ∧ x ≤ b := by
  intro hb
  simp only [brentq] at hb
  by_cases h0 : f a = 0
  · rw [if_pos h0] at hb
    cases hb
    exact ⟨le_refl _, h⟩
  · rw [if_neg h0] at hb
    by_cases h1 : f b = 0
    · rw [if_pos h1] at hb
      cases hb
      exact ⟨h, le_refl _⟩
    · rw [if_neg h1] at hb
      by_cases h2 : 0 < qmul (f a) (f b)
      · rw [if_pos h2] at hb
        exact absurd hb (by simp)
      · rw [if_neg h2] at hb
        exact bisect_bracket f n a b x h hb

/-! Counting lemmas for the historical-volatility pipeline: the early-exit
guards of `calculate_hv` cannot fire once the return series is long enough. -/

theorem dedupKeys_length_le (seen : List Int) (l : List (Int × Option ℚ)) :
    (ChainCalc.dedupKeys seen l).length ≤ l.length := by
  induction l generalizing seen with
  | nil => simp [ChainCalc.dedupKeys]
  | cons x xs ih =>
    rw [ChainCalc.dedupKeys]
    by_cases h : x.1 ∈ seen
    · rw [if_pos h]
      exact le_trans (ih seen) (Nat.le_succ _)
    · rw [if_neg h]
      simpa using Nat.succ_le_succ (ih (x.1 :: seen))

theorem sortByLe_length {α : Type} (le : α → α → Bool) (l : List α) :
    (sortByLe le l).length = l.length :=
  (sortByLe_perm le l).length_eq

theorem hv_prices_le_filtered (df_hist : List HistRow) (u_isin : String) :
    (ChainCalc.hv_prices df_hist u_isin).length ≤
      (ChainCalc.hv_filtered df_hist u_isin).length := by
  have h1 : (ChainCalc.hv_prices df_hist u_isin).length ≤
      (ChainCalc.hv_deduped df_hist u_isin).length := by
    rw [ChainCalc.hv_prices]
    exact le_trans (List.length_filter_le _ _) (List.length_filterMap_le _ _)
  have h2 : (ChainCalc.hv_deduped df_hist u_isin).length ≤
      (ChainCalc.hv_dated df_hist u_isin).length := by
    rw [ChainCalc.hv_deduped]
    exact le_trans (dedupKeys_length_le [] _) (le_of_eq (sortByLe_length _ _))
  have h3 : (ChainCalc.hv_dated df_hist u_isin).length ≤
      (ChainCalc.hv_filtered df_hist u_isin).length := by
    rw [ChainCalc.hv_dated]
    exact List.length_filterMap_le _ _
  exact le_trans h1 (le_trans h2 h3)

theorem hv_rets_length (m : MathFns) (df_hist : List HistRow) (u_isin : String) :
    (ChainCalc.hv_rets m df_hist u_isin).length =
      (ChainCalc.hv_prices df_hist u_isin).length - 1 := by
  rw [ChainCalc.hv_rets, List.length_zipWith, List.length_tail]
  omega

theorem sampleVar_nonneg (xs : List ℚ) (h2 : 2 ≤ xs.length) :
    0 ≤ ChainCalc.sampleVar xs := by
  rw [ChainCalc.sampleVar]
  rw [qdiv_eq, qsum_eq, qsub_eq, qofNat_eq]
  apply div_nonneg
  · apply List.sum_nonneg
    intro x hx
    rcases List.mem_map.mp hx with ⟨y, _, hy⟩
    rw [← hy, qmul_eq]
    exact mul_self_nonneg _
  · have : (2 : ℚ) ≤ (xs.length : ℚ) := by exact_mod_cast h2
    linarith

theorem lastN_length {α : Type} (l : List α) (k : Nat) (h : k ≤ l.length) :
    (ChainCalc.lastN l k).length = k := by
  rw [ChainCalc.lastN, List.length_drop]
  omega

/-! The scheduler loop unrolled: the fold visits every stage in order and
tallies exactly the successes. -/

theorem stepFold_go (run_step : String → Bool) (l : List String)
    (acc : List (String × Bool) × Nat) :
    l.foldl
        (fun acc name =>
          let ok := run_step name
          (acc.1 ++ [(name, ok)], if ok then acc.2 + 1 else acc.2))
        acc
      = (acc.1 ++ l.map (fun s => (s, run_step s)), acc.2 + l.countP run_step) := by
  induction l generalizing acc with
  | nil => simp
  | cons s ss ih =>
    rw [List.foldl_cons, ih, List.map_cons, List.countP_cons]
    by_cases h : run_step s = true
    · simp [h]
      try omega
    · simp [h]
      try omega

theorem stepFold_spec (run_step : String → Bool) (l : List String) :
    Updater.stepFold run_step l = (l.map (fun s => (s, run_step s)), l.countP run_step) := by
  rw [Updater.stepFold, stepFold_go]
  simp

/-! ## Concrete instantiations

Closed data used by the counterexamples and witnesses: a simple record of
external math functions and small input tables the kernel can evaluate. -/

/-- A concrete record of external math functions (`log ↦ 0`, the others
`↦ 1`) for closed evaluations. -/
def mW : MathFns := ⟨fun _ => 0, fun _ => 1, fun _ => 1, fun _ => 1, fun _ => 1⟩

/-- A live CALL contract: strike 50, 10 days to expiry, price 50, on
underlying `U` quoted at 100 (so its fair value under `mW` is `S - K = 50`
for every sigma, and the solver returns the bracket's lower end). -/
def callRowW : LiveRow :=
  { underlying_isin := some "U", strike := 50, remained_day := 10, real_time_price := 50,
    last := none, type := OptType.CALL, isin_put := some "P1", isin_call := some "C1",
    end_date := some "14050101", underlying_real_time_price := some 100,
    ticker := "tC", name := "nC", begin_date := "b", count := none, volume := none,
    open_interest := none, underlying_ticker := "UT", contract_size := none }

/-- A live PUT on the same underlying and expiry, strike 150 (fair value
`K - S = 50` under `mW`). -/
def putRowW : LiveRow :=
  { callRowW with strike := 150, type := OptType.PUT }

def undW : List UnderlyingRow := [⟨some "U", some 100⟩]

/-- File system for the C1 counterexample: no cached output, a live table
holding the CALL and the PUT above. -/
def envC1 : Env := ⟨some [callRowW, putRowW], none, some undW, none, none, none, none, ""⟩

/-- The chain table the C1 environment builds. -/
def chainTableC1 : List ChainRow := ChainCalc.chainTableOf mW [callRowW, putRowW] [] undW

/-- A two-row history (one log return) for underlying `X`. -/
def hist2W : List HistRow := [⟨some "X", "1", some 1⟩, ⟨some "X", "2", some 2⟩]

def datesW : List String :=
  ["10", "11", "12", "13", "14", "15", "16", "17", "18", "19", "20", "21", "22", "23",
   "24", "25", "26", "27", "28", "29", "30", "31", "32", "33", "34", "35", "36", "37",
   "38", "39", "40"]

/-- A 31-row constant-price history (30 log returns) for underlying `X`. -/
def histW : List HistRow := datesW.map (fun d => ⟨some "X", d, some 1⟩)

/-- One historical option-price observation before expiry for `P1`. -/
def histOptW : List HistOptRow := [⟨some "P1", "14040101", some 50⟩]

/-- The matching underlying-history price at the same observation date. -/
def histUndW : List HistRow := [⟨some "U", "14040101", some 100⟩]

/-- File system with every file absent. -/
def envNone : Env := ⟨none, none, none, none, none, none, none, ""⟩

/-- File system where the chain output exists but the live input is
absent. -/
def envTen : Env := ⟨none, none, none, none, some [], none, none, ""⟩

/-! ## The claims -/

/-- C1: the claim asserts the three-key sort order with "every CALL row
precedes every PUT row" inside an equal days-to-expiry group.  It fails on
the code: `sort_values(..., ascending=[True, False, True])` sorts the `type`
label *descending*, and `"PUT" > "CALL"`, so the chain built from a CALL and
a PUT with equal days-to-expiry places the PUT row first.  The built table
`[PUT, CALL]` violates the claimed adjacent-pair order. -/
def chainPairsB (p : ChainRow → ChainRow → Bool) : List ChainRow → Bool
  | [] => true
  | [_] => true
  | a :: b :: rest => p a b && chainPairsB p (b :: rest)

theorem chainPairsB_iff (p : ChainRow → ChainRow → Bool) (R : ChainRow → ChainRow → Prop)
    (hp : ∀ a b, p a b = true ↔ R a b) :
    ∀ l, chainPairsB p l = true ↔ List.Chain' R l
  | [] => by simp [chainPairsB]
  | [a] => by simp [chainPairsB]
  | a :: b :: rest => by
    rw [chainPairsB, List.chain'_cons, Bool.and_eq_true, hp, chainPairsB_iff p R hp (b :: rest)]

theorem claim_C1_counterexample :
    ChainCalc.build_chain mW envC1 = Except.ok chainTableC1 ∧
    chainTableC1.map (fun r => typeStr r.type) = ["PUT", "CALL"] ∧
    ¬ List.Chain' chainPairClaim chainTableC1 := by
  refine ⟨rfl, by decide, ?_⟩
  have hb : chainPairsB (fun a b => decide (chainPairClaim a b)) chainTableC1 = false := by decide
  intro hc
  have ht := (chainPairsB_iff (fun a b => decide (chainPairClaim a b)) chainPairClaim
    (fun a b => decide_eq_true_iff) chainTableC1).mpr hc
  rw [ht] at hb
  exact Bool.noConfusion hb

/-- C1 (amended): for every chain table produced by a (re)build, every
adjacent pair of rows satisfies the code's three-key sort order:
days-to-expiry is non-decreasing; among rows with equal days-to-expiry every
PUT row precedes every CALL row (the kind label is sorted descending); and
among rows with equal days-to-expiry and equal kind, strike is
non-decreasing. -/
theorem claim_C1_amended (m : MathFns) (live : List LiveRow) (df_hist : List HistRow)
    (und : List UnderlyingRow) :
    List.Chain' chainPairCode (ChainCalc.chainTableOf m live df_hist und) := by
  rw [ChainCalc.chainTableOf]
  exact List.Chain'.imp (fun a b h => chainLe_imp_pairCode a b h)
    (List.Pairwise.chain' (sortByLe_pairwise ChainCalc.chainLe chainLe_total chainLe_trans _))

/-- C3: for any non-positive `S`, `K`, `T` or `sigma`, both `bs_price`
variants return exactly 0; for non-positive `S`, `K` or `T` (the degenerate
conditions applicable to a solver that takes no sigma) both
`implied_volatility` variants return undefined; and the Greeks calculator
returns the all-undefined record — none of them raises. -/
theorem claim_C3 (m : MathFns) (S K T r sigma price : ℚ) (ty : OptType) :
    ((S ≤ 0 ∨ K ≤ 0 ∨ T ≤ 0 ∨ sigma ≤ 0) →
        ChainCalc.bs_price m S K T r sigma ty = 0 ∧ IvCalc.bs_price m S K T r sigma ty = 0) ∧
    ((S ≤ 0 ∨ K ≤ 0 ∨ T ≤ 0) →
        ChainCalc.implied_volatility m price S K T r ty = none ∧
          IvCalc.implied_volatility m price S K T r ty = none) ∧
    ((S ≤ 0 ∨ K ≤ 0 ∨ T ≤ 0 ∨ sigma ≤ 0) →
        ChainCalc.calculate_greeks m S K T r sigma ty = ChainCalc.greeksNaN) := by
  refine ⟨?_, ?_, ?_⟩
  · intro h
    have hg : T ≤ 0 ∨ sigma ≤ 0 ∨ S ≤ 0 ∨ K ≤ 0 := by tauto
    constructor
    · simp only [ChainCalc.bs_price]
      rw [if_pos hg]
    · simp only [IvCalc.bs_price]
      rw [if_pos hg]
  · intro h
    have hg : price ≤ 0 ∨ T ≤ 0 ∨ S ≤ 0 ∨ K ≤ 0 := by tauto
    constructor
    · simp only [ChainCalc.implied_volatility]
      rw [if_pos hg]
    · simp only [IvCalc.implied_volatility]
      rw [if_pos hg]
  · intro h
    have h0 : (0 : ℚ) ≤ ChainCalc.MIN_IV := by decide
    have hg : T ≤ 0 ∨ sigma ≤ ChainCalc.MIN_IV ∨ S ≤ 0 ∨ K ≤ 0 := by
      rcases h with h | h | h | h
      · exact Or.inr (Or.inr (Or.inl h))
      · exact Or.inr (Or.inr (Or.inr h))
      · exact Or.inl h
      · exact Or.inr (Or.inl (le_trans h h0))
    simp only [ChainCalc.calculate_greeks]
    rw [if_pos hg]

theorem claim_C3_witness :
    ChainCalc.bs_price mW (mkRat (-1) 1) 1 1 1 1 OptType.CALL = 0 ∧
    IvCalc.bs_price mW (mkRat (-1) 1) 1 1 1 1 OptType.CALL = 0 ∧
    ChainCalc.implied_volatility mW 1 (mkRat (-1) 1) 1 1 1 OptType.CALL = none ∧
    IvCalc.implied_volatility mW 1 (mkRat (-1) 1) 1 1 1 OptType.CALL = none ∧
    ChainCalc.calculate_greeks mW (mkRat (-1) 1) 1 1 1 1 OptType.CALL = ChainCalc.greeksNaN := by
  have h := claim_C3 mW (mkRat (-1) 1) 1 1 1 1 1 OptType.CALL
  have hS : (mkRat (-1) 1 : ℚ) ≤ 0 := by decide
  exact ⟨(h.1 (Or.inl hS)).1, (h.1 (Or.inl hS)).2, (h.2.1 (Or.inl hS)).1,
    (h.2.1 (Or.inl hS)).2, h.2.2 (Or.inl hS)⟩

/-- C4: the Greeks dictionary is all-defined or all-undefined — with the
all-undefined record exactly on `T ≤ 0 ∨ sigma ≤ MIN_IV ∨ S ≤ 0 ∨ K ≤ 0` —
and, when defined, theta is the annualized theta divided by 365 and vega and
rho are the per-unit values divided by 100. -/
theorem claim_C4 (m : MathFns) (S K T r sigma : ℚ) (ty : OptType) :
    (ChainCalc.calculate_greeks m S K T r sigma ty = ChainCalc.greeksNaN ∨
      ((ChainCalc.calculate_greeks m S K T r sigma ty).delta.isSome = true ∧
        (ChainCalc.calculate_greeks m S K T r sigma ty).gamma.isSome = true ∧
        (ChainCalc.calculate_greeks m S K T r sigma ty).theta
            = some (ChainCalc.greeks_theta_annual m S K T r sigma ty / 365) ∧
        (ChainCalc.calculate_greeks m S K T r sigma ty).vega
            = some (ChainCalc.greeks_vega_raw m S K T r sigma / 100) ∧
        (ChainCalc.calculate_greeks m S K T r sigma ty).rho
            = some (ChainCalc.greeks_rho_raw m S K T r sigma ty / 100))) ∧
    ((T ≤ 0 ∨ sigma ≤ ChainCalc.MIN_IV ∨ S ≤ 0 ∨ K ≤ 0) →
        ChainCalc.calculate_greeks m S K T r sigma ty = ChainCalc.greeksNaN) := by
  by_cases hg : T ≤ 0 ∨ sigma ≤ ChainCalc.MIN_IV ∨ S ≤ 0 ∨ K ≤ 0
  · constructor
    · left
      simp only [ChainCalc.calculate_greeks]
      rw [if_pos hg]
    · intro _
      simp only [ChainCalc.calculate_greeks]
      rw [if_pos hg]
  · constructor
    · right
      simp only [ChainCalc.calculate_greeks]
      rw [if_neg hg]
      refine ⟨rfl, rfl, ?_, ?_, ?_⟩ <;> (simp only [qdiv_eq]; try rfl)
    · intro h
      exact absurd h hg

theorem claim_C4_witness :
    ChainCalc.calculate_greeks mW 1 1 0 0 1 OptType.CALL = ChainCalc.greeksNaN :=
  (claim_C4 mW 1 1 0 0 1 OptType.CALL).2 (Or.inl (le_refl 0))

/-- C5: the claim asserts HV252 is defined whenever at least one valid log
return exists.  It fails on the code: `rets.std()` is the pandas sample
standard deviation (`ddof = 1`), which is `NaN` on a single observation, so a
series with exactly one return — here two positive prices — yields an
undefined HV252. -/
theorem claim_C5_counterexample :
    (ChainCalc.hv_rets mW hist2W "X").length = 1 ∧
    (ChainCalc.calculate_hv mW hist2W "X").v252 = none := by
  constructor <;> decide

/-- C5 (amended): HV30 is undefined when the series has fewer than 30 valid
log returns and defined and non-negative otherwise (for any square root that
preserves non-negativity, as the real one does); HV252 is defined whenever at
least *two* valid returns exist (the sample standard deviation needs two
observations). -/
theorem claim_C5_amended (m : MathFns) (df_hist : List HistRow) (u_isin : String)
    (hsq : ∀ x : ℚ, 0 ≤ x → 0 ≤ m.sqrt x) :
    ((ChainCalc.hv_rets m df_hist u_isin).length < 30 →
        (ChainCalc.calculate_hv m df_hist u_isin).v30 = none) ∧
    (30 ≤ (ChainCalc.hv_rets m df_hist u_isin).length →
        (ChainCalc.calculate_hv m df_hist u_isin).v30.isSome = true ∧
          0 ≤ (ChainCalc.calculate_hv m df_hist u_isin).v30.getD 0) ∧
    (2 ≤ (ChainCalc.hv_rets m df_hist u_isin).length →
        (ChainCalc.calculate_hv m df_hist u_isin).v252.isSome = true) := by
  have hlen := hv_rets_length m df_hist u_isin
  have hple := hv_prices_le_filtered df_hist u_isin
  refine ⟨?_, ?_, ?_⟩
  · intro h30
    simp only [ChainCalc.calculate_hv]
    split_ifs <;> first | rfl | omega
  · intro h30
    have hf : ¬ (ChainCalc.hv_filtered df_hist u_isin).length < 2 := by omega
    have hp : ¬ (ChainCalc.hv_prices df_hist u_isin).length < 2 := by omega
    have hr : ¬ (ChainCalc.hv_rets m df_hist u_isin).length = 0 := by omega
    have h30' : (ChainCalc.lastN (ChainCalc.hv_rets m df_hist u_isin) 30).length = 30 :=
      lastN_length _ _ h30
    simp only [ChainCalc.calculate_hv]
    rw [if_neg hf, if_neg hp, if_neg hr]
    dsimp only
    rw [if_pos h30]
    rw [ChainCalc.pdStd, if_neg (by omega)]
    constructor
    · rfl
    · dsimp only [Option.map, Option.getD]
      rw [qmul_eq]
      have hv : 0 ≤ ChainCalc.sampleVar (ChainCalc.lastN (ChainCalc.hv_rets m df_hist u_isin) 30) :=
        sampleVar_nonneg _ (by omega)
      exact mul_nonneg (hsq _ hv) (hsq 252 (by norm_num))
  · intro h2
    have hf : ¬ (ChainCalc.hv_filtered df_hist u_isin).length < 2 := by omega
    have hp : ¬ (ChainCalc.hv_prices df_hist u_isin).length < 2 := by omega
    have hr : ¬ (ChainCalc.hv_rets m df_hist u_isin).length = 0 := by omega
    simp only [ChainCalc.calculate_hv]
    rw [if_neg hf, if_neg hp, if_neg hr]
    dsimp only
    rw [ChainCalc.pdStd, if_neg (by omega)]
    rfl

theorem claim_C5_witness :
    (ChainCalc.calculate_hv mW histW "X").v30.isSome = true ∧
    0 ≤ (ChainCalc.calculate_hv mW histW "X").v30.getD 0 ∧
    (ChainCalc.calculate_hv mW histW "X").v252.isSome = true := by
  have h := claim_C5_amended mW histW "X" (fun x hx => show (0 : ℚ) ≤ 1 by decide)
  exact ⟨(h.2.1 (by decide)).1, (h.2.1 (by decide)).2, h.2.2 (by decide)⟩

/-- C6: every record the IV History Builder emits has strictly positive
days-to-expiry — a historical observation at or after the contract's current
expiry (`end_int ≤ date_int`) is skipped and produces no record. -/
theorem claim_C6 (m : MathFns) (live : List LiveRow) (histOpt : List HistOptRow)
    (histUnd : List HistRow) (rec : IVRecord)
    (hmem : rec ∈ IvCalc.ivRecordsOf m live histOpt histUnd) :
    0 < rec.days_to_expiry := by
  simp only [IvCalc.ivRecordsOf] at hmem
  rw [mem_sortByLe] at hmem
  rcases List.mem_filterMap.mp hmem with ⟨opt, _, hp⟩
  simp only [IvCalc.processHistOpt] at hp
  repeat' split at hp
  all_goals first
  | exact Option.noConfusion hp
  | (cases hp; dsimp only; omega)

theorem claim_C6_witness :
    0 < ((IvCalc.ivRecordsOf mW [putRowW] histOptW histUndW).headD default).days_to_expiry :=
  claim_C6 mW [putRowW] histOptW histUndW _ (by decide)

/-- C7: for every outcome of the individual stages, `_run_pipeline` executes
all stages of the fixed sequence in order (a failing stage never blocks the
later ones), records the `successes/total` status string, sets the last-update
stamp, and schedules the next run at the current time plus the configured
interval. -/
theorem claim_C7 (run_step : String → Bool) (end_time interval : ℚ) (now : String) :
    (Updater.run_pipeline run_step end_time interval now).trace
        = Updater.steps.map (fun s => (s, run_step s)) ∧
    (Updater.run_pipeline run_step end_time interval now).trace.map Prod.fst = Updater.steps ∧
    (Updater.run_pipeline run_step end_time interval now).success_count
        = Updater.steps.countP run_step ∧
    (Updater.run_pipeline run_step end_time interval now).status
        = Updater.statusOf (Updater.steps.countP run_step) Updater.steps.length ∧
    (Updater.run_pipeline run_step end_time interval now).last_update = now ∧
    (Updater.run_pipeline run_step end_time interval now).next_run_time
        = end_time + interval := by
  have hsf := stepFold_spec run_step Updater.steps
  refine ⟨?_, ?_, ?_, ?_, rfl, qadd_eq _ _⟩
  · show (Updater.stepFold run_step Updater.steps).1
        = Updater.steps.map (fun s => (s, run_step s))
    rw [hsf]
  · show ((Updater.stepFold run_step Updater.steps).1).map Prod.fst = Updater.steps
    rw [hsf, List.map_map]
    exact List.map_id _
  · show (Updater.stepFold run_step Updater.steps).2 = Updater.steps.countP run_step
    rw [hsf]
  · show Updater.statusOf (Updater.stepFold run_step Updater.steps).2 Updater.steps.length
        = Updater.statusOf (Updater.steps.countP run_step) Updater.steps.length
    rw [hsf]

/-- C8: the claim asserts that both builders return an empty result rather
than raising when a required input table is absent.  It fails for the IV
History Builder: `build_iv_history` reads its inputs with no existence
guard, so with every file absent it raises `FileNotFoundError` instead of
returning an empty table. -/
theorem claim_C8_counterexample :
    IvCalc.build_iv_history mW envNone
        = Except.error "FileNotFoundError: options_live.xlsx" ∧
    IvCalc.build_iv_history mW envNone ≠ Except.ok [] := by
  refine ⟨rfl, ?_⟩
  intro h
  rw [show IvCalc.build_iv_history mW envNone
      = Except.error "FileNotFoundError: options_live.xlsx" from rfl] at h
  exact Except.noConfusion h

/-- C8 (amended): when a rebuild is due and the live input is absent, the
Chain Builder returns an empty table without raising; the IV History Builder,
by contrast, raises (returns the error case) whenever its output is missing
and a required input file is absent — the Scheduler survives either way
because `_run_step` catches stage exceptions (C7). -/
theorem claim_C8_amended (m : MathFns) (env : Env) :
    (ChainCalc.should_rebuild env = true → env.options_live = none →
        ChainCalc.build_chain m env = Except.ok []) ∧
    (env.output_iv = none → (env.options_live = none ∨ env.options_history = none) →
        (IvCalc.build_iv_history m env).isOk = false) := by
  constructor
  · intro hsr hlive
    simp only [ChainCalc.build_chain]
    rw [if_neg (by simp [hsr])]
    rw [hlive]
  · intro hout hmiss
    have hsr : IvCalc.should_rebuild env = true := by
      simp only [IvCalc.should_rebuild, hout]
    simp only [IvCalc.build_iv_history]
    rw [if_neg (by simp [hsr])]
    rcases hmiss with hl | hh
    · simp [readExcel, hl, Except.isOk, Except.toBool]
    · cases hl2 : env.options_live with
      | none => simp [readExcel, hl2, Except.isOk, Except.toBool]
      | some live => simp [readExcel, hl2, hh, Except.isOk, Except.toBool]

theorem claim_C8_witness :
    ChainCalc.build_chain mW envNone = Except.ok [] ∧
    (IvCalc.build_iv_history mW envNone).isOk = false := by
  have h := claim_C8_amended mW envNone
  exact ⟨h.1 rfl rfl, h.2 rfl (Or.inl rfl)⟩

/-- C9: whenever either `implied_volatility` returns a defined value, that
value lies within the closed bracket handed to the root-finder: `[0.01, 5]`
on the live chain path and `[1e-6, 5]` on the historical path. -/
theorem claim_C9 (m : MathFns) (price S K T r sigma : ℚ) (ty : OptType) :
    (ChainCalc.implied_volatility m price S K T r ty = some sigma →
        ChainCalc.MIN_IV ≤ sigma ∧ sigma ≤ ChainCalc.MAX_IV) ∧
    (IvCalc.implied_volatility m price S K T r ty = some sigma →
        IvCalc.MIN_IV ≤ sigma ∧ sigma ≤ IvCalc.MAX_IV) := by
  constructor
  · intro h
    simp only [ChainCalc.implied_volatility] at h
    by_cases hg : price ≤ 0 ∨ T ≤ 0 ∨ S ≤ 0 ∨ K ≤ 0
    · rw [if_pos hg] at h
      exact Option.noConfusion h
    · rw [if_neg hg] at h
      exact brentq_bracket _ _ _ _ _ (by decide) h
  · intro h
    simp only [IvCalc.implied_volatility] at h
    by_cases hg : price ≤ 0 ∨ T ≤ 0 ∨ S ≤ 0 ∨ K ≤ 0
    · rw [if_pos hg] at h
      exact Option.noConfusion h
    · rw [if_neg hg] at h
      exact brentq_bracket _ _ _ _ _ (by decide) h

theorem claim_C9_witness :
    (ChainCalc.MIN_IV ≤ mkRat 1 100 ∧ mkRat 1 100 ≤ ChainCalc.MAX_IV) ∧
    (IvCalc.MIN_IV ≤ mkRat 1 1000000 ∧ mkRat 1 1000000 ≤ IvCalc.MAX_IV) :=
  ⟨(claim_C9 mW 50 100 50 (mkRat 10 365) ChainCalc.RISK_FREE_RATE (mkRat 1 100)
      OptType.CALL).1 (by decide),
   (claim_C9 mW 50 100 150 1 IvCalc.RISK_FREE_RATE (mkRat 1 1000000)
      OptType.PUT).2 (by decide)⟩

/-- C10: when the chain output artifact exists and the live options input is
absent, the staleness check reports "not stale" and `build_chain` returns the
previously written artifact unchanged — neither a rebuild nor an empty
result. -/
theorem claim_C10 (m : MathFns) (env : Env) (prev : List ChainRow)
    (h1 : env.output_chain = some prev) (h2 : env.options_live = none) :
    ChainCalc.should_rebuild env = false ∧
      ChainCalc.build_chain m env = Except.ok prev := by
  have hs : ChainCalc.should_rebuild env = false := by
    simp only [ChainCalc.should_rebuild, h1, h2]
  refine ⟨hs, ?_⟩
  simp only [ChainCalc.build_chain]
  rw [if_pos hs]
  simp [readExcel, h1]

theorem claim_C10_witness :
    ChainCalc.should_rebuild envTen = false ∧
      ChainCalc.build_chain mW envTen = Except.ok [] :=
  claim_C10 mW envTen [] rfl rfl

end TSE
